import Mathlib

/-!
Verification of the braft storage-layer contracts (`src/braft/storage.h`).

The header declares the abstract interfaces `LogStorage`, `StableStorage`,
the `Snapshot` family and `SnapshotStorage`.  The only executable code in the
header itself is the default bodies of `Snapshot::get_file_meta`,
`SnapshotWriter::add_file(filename)` and the three optional capability hooks
of `SnapshotStorage`; those are embedded directly.  The `LogStorage`
behaviour is specified by its documented contract (the backends live outside
this header), so the log-storage operations are modelled from the spec as the
reference in-memory backend the spec calls for: a first index together with
the contiguous list of stored entries.
-/

namespace Braft

/-- Peer identifier: a network address plus a replica discriminator;
opaque to the storage layer beyond equality. -/
structure PeerId where
  addr : String
  idx : Nat
  deriving DecidableEq, Repr

/-- Type tag of a log entry: normal write, configuration change, or no-op. -/
inductive EntryType where
  | entryNormal
  | entryConfiguration
  | entryNoOp
  deriving DecidableEq, Repr

/-- A log entry, identified by (index, term), carrying a type tag and an
opaque payload; configuration-change entries also carry a peer set. -/
structure LogEntry where
  index : Int
  term : Int
  etype : EntryType
  payload : String
  peers : List PeerId
  deriving DecidableEq, Repr

/-- Modelled from the spec: the reference in-memory `LogStorage` backend
(the concrete backends are outside `storage.h`).  The state is the first
stored index together with the contiguous list of stored entries, so the
entry at log index `i` sits at list position `i - first`. -/
structure LogStorage where
  first : Int
  entries : List LogEntry
  deriving DecidableEq, Repr

/-- `first_log_index()`: first log index in the log. -/
def first_log_index (s : LogStorage) : Int := s.first

/-- `last_log_index()`: last log index in the log; on an empty log this is
`first_log_index - 1`. -/
def last_log_index (s : LogStorage) : Int := s.first + s.entries.length - 1

/-- Modelled from the spec: `get_entry(index)` returns the entry, or a null
result if `index` is outside `[first_log_index, last_log_index]`. -/
def get_entry (s : LogStorage) (i : Int) : Option LogEntry :=
  if first_log_index s ≤ i ∧ i ≤ last_log_index s then
    s.entries[(i - s.first).toNat]?
  else
    none

/-- Modelled from the spec: `get_term(index)` looks up only the term of the
entry at `index` (0 when out of range), without materializing the payload. -/
def get_term (s : LogStorage) (i : Int) : Int :=
  if first_log_index s ≤ i ∧ i ≤ last_log_index s then
    ((s.entries[(i - s.first).toNat]?).map LogEntry.term).getD 0
  else
    0

/-- Modelled from the spec: a freshly `init`-ed empty log has
`first_log_index = 1` and `last_log_index = 0`. -/
def empty_log : LogStorage := { first := 1, entries := [] }

/-- Modelled from the spec: `append_entry` appends one entry, which must
carry the index immediately following the current last index; returns the
new state and 0 on success, the unchanged state and -1 on refusal. -/
def append_entry (s : LogStorage) (e : LogEntry) : LogStorage × Int :=
  if e.index = last_log_index s + 1 then
    ({ s with entries := s.entries ++ [e] }, 0)
  else
    (s, -1)

/-- Modelled from the spec: `append_entries` persists entries in order while
their indices are contiguous after the current last index, and returns the
count of entries persisted (a short count on partial failure). -/
def append_entries : LogStorage → List LogEntry → LogStorage × Nat
  | s, [] => (s, 0)
  | s, e :: rest =>
    if e.index = last_log_index s + 1 then
      let r := append_entries { s with entries := s.entries ++ [e] } rest
      (r.1, r.2 + 1)
    else
      (s, 0)

/-- Modelled from the spec: `truncate_prefix(first_index_kept)` discards
`[first_log_index, first_index_kept)`; no-op if
`first_index_kept <= first_log_index`. -/
def truncate_prefix (s : LogStorage) (k : Int) : LogStorage :=
  if k ≤ s.first then
    s
  else
    { first := k, entries := s.entries.drop (k - s.first).toNat }

/-- Modelled from the spec: `truncate_suffix(last_index_kept)` discards
`(last_index_kept, last_log_index]`, leaving
`last_log_index = min(last_log_index_before, last_index_kept)`; no-op if
`last_index_kept >= last_log_index`.  When the whole log is discarded
(`last_index_kept < first_log_index - 1`), the empty log comes to rest at
`first_log_index = last_log_index + 1 = last_index_kept + 1`, per the
spec's empty-log rule. -/
def truncate_suffix (s : LogStorage) (k : Int) : LogStorage :=
  if last_log_index s ≤ k then
    s
  else if k < first_log_index s - 1 then
    { first := k + 1, entries := [] }
  else
    { first := s.first, entries := s.entries.take (k - s.first + 1).toNat }

/-- Modelled from the spec: `reset(next_log_index)` unconditionally empties
the log and sets `first_log_index = last_log_index + 1 = next_log_index`. -/
def reset (_s : LogStorage) (n : Int) : LogStorage :=
  { first := n, entries := [] }

/-- A mutating `LogStorage` call, for quantifying over call sequences. -/
inductive LogOp where
  | append (es : List LogEntry)
  | truncPrefix (k : Int)
  | truncSuffix (k : Int)
  | resetTo (n : Int)
  deriving Repr

/-- Apply one mutating call to a log-storage state. -/
def applyOp (s : LogStorage) : LogOp → LogStorage
  | .append es => (append_entries s es).1
  | .truncPrefix k => truncate_prefix s k
  | .truncSuffix k => truncate_suffix s k
  | .resetTo n => reset s n

/-- The state after running a sequence of mutating calls on a fresh log. -/
def run (ops : List LogOp) : LogStorage := ops.foldl applyOp empty_log

/-! ### Helper lemmas about the log-storage model -/

theorem first_le_last_succ (s : LogStorage) :
    first_log_index s ≤ last_log_index s + 1 := by
  unfold first_log_index last_log_index
  omega

theorem first_eq_last_succ_iff (s : LogStorage) :
    first_log_index s = last_log_index s + 1 ↔ s.entries = [] := by
  unfold first_log_index last_log_index
  constructor
  · intro h
    have hlen : s.entries.length = 0 := by omega
    exact List.length_eq_zero.mp hlen
  · intro h
    simp [h]

theorem get_entry_isSome_of_mem (s : LogStorage) (i : Int)
    (h1 : first_log_index s ≤ i) (h2 : i ≤ last_log_index s) :
    (get_entry s i).isSome := by
  have hlen : (i - s.first).toNat < s.entries.length := by
    unfold first_log_index at h1
    unfold last_log_index at h2
    omega
  unfold get_entry
  rw [if_pos ⟨h1, h2⟩, List.getElem?_eq_getElem hlen]
  rfl

theorem get_entry_out_of_range (s : LogStorage) (i : Int)
    (h : i < first_log_index s ∨ last_log_index s < i) :
    get_entry s i = none := by
  unfold get_entry
  rw [if_neg]
  rintro ⟨ha, hb⟩
  rcases h with h | h <;> omega

/-! ### Claim theorems: log-index invariant and reset -/

/-- C1: for every sequence of log-storage calls,
`first_log_index() <= last_log_index() + 1`, equality holds exactly when the
log is empty, and every index between the first and the last holds an entry
(indices are contiguous, with no holes). -/
theorem log_index_invariant (ops : List LogOp) :
    first_log_index (run ops) ≤ last_log_index (run ops) + 1 ∧
    (first_log_index (run ops) = last_log_index (run ops) + 1 ↔
      (run ops).entries = []) ∧
    ∀ i : Int, first_log_index (run ops) ≤ i → i ≤ last_log_index (run ops) →
      (get_entry (run ops) i).isSome :=
  ⟨first_le_last_succ _, first_eq_last_succ_iff _,
    fun i h1 h2 => get_entry_isSome_of_mem _ i h1 h2⟩

/-- Witness for C1 at the one-call sequence appending a single entry. -/
theorem log_index_invariant_witness :
    first_log_index (run [LogOp.append [⟨1, 1, EntryType.entryNormal, "x", []⟩]])
      ≤ (1 : Int) ∧
    (1 : Int) ≤ last_log_index (run [LogOp.append [⟨1, 1, EntryType.entryNormal, "x", []⟩]]) ∧
    (get_entry (run [LogOp.append [⟨1, 1, EntryType.entryNormal, "x", []⟩]]) 1).isSome :=
  ⟨by decide, by decide,
    (log_index_invariant [LogOp.append [⟨1, 1, EntryType.entryNormal, "x", []⟩]]).2.2
      1 (by decide) (by decide)⟩

/-- C2: after `reset(n)`, `first_log_index() = n`, `last_log_index() = n - 1`,
and `get_entry` returns null at every index, independent of prior contents. -/
theorem reset_spec (s : LogStorage) (n : Int) :
    first_log_index (reset s n) = n ∧
    last_log_index (reset s n) = n - 1 ∧
    ∀ i : Int, get_entry (reset s n) i = none := by
  refine ⟨rfl, ?_, fun i => ?_⟩
  · unfold last_log_index reset
    simp
  · unfold get_entry reset
    split
    · simp
    · rfl

/-- C3: after `truncate_prefix(k)`, `first_log_index()` equals
`max(first_log_index_before, k)` and every index below `k` reads as
not-found; when `k <= first_log_index_before` the call is a no-op leaving
the state unchanged. -/
theorem truncate_prefix_correct (s : LogStorage) (k : Int) :
    first_log_index ( truncate_prefix s k) = max (first_log_index s) k ∧
    (∀ i : Int, i < k → get_entry ( truncate_prefix s k) i = none) ∧
    (k ≤ first_log_index s → truncate_prefix s k = s) := by
  unfold truncate_prefix
  split
  · next hk =>
    refine ⟨?_, fun i hi => ?_, fun _ => rfl⟩
    · unfold first_log_index
      exact (max_eq_left hk).symm
    · exact get_entry_out_of_range s i (Or.inl (by unfold first_log_index; omega))
  · next hk =>
    refine ⟨?_, fun i hi => ?_, fun h => absurd h hk⟩
    · unfold first_log_index
      exact (max_eq_right (le_of_lt (lt_of_not_le hk))).symm
    · exact get_entry_out_of_range _ i (Or.inl (by unfold first_log_index; exact hi))

/-- Witness for C3: truncating the two-entry log at `k = 2` removes index 1. -/
theorem truncate_prefix_correct_witness :
    first_log_index
        ( truncate_prefix { first := 1, entries := [⟨1, 1, EntryType.entryNormal, "a", []⟩,
            ⟨2, 1, EntryType.entryNormal, "b", []⟩] } 2)
      = max 1 2 ∧
    (1 : Int) < 2 ∧
    get_entry
        ( truncate_prefix { first := 1, entries := [⟨1, 1, EntryType.entryNormal, "a", []⟩,
            ⟨2, 1, EntryType.entryNormal, "b", []⟩] } 2) 1 = none :=
  ⟨(truncate_prefix_correct { first := 1, entries := [⟨1, 1, EntryType.entryNormal, "a", []⟩,
      ⟨2, 1, EntryType.entryNormal, "b", []⟩] } 2).1, by decide,
    (truncate_prefix_correct { first := 1, entries := [⟨1, 1, EntryType.entryNormal, "a", []⟩,
      ⟨2, 1, EntryType.entryNormal, "b", []⟩] } 2).2.1 1 (by decide)⟩

/-- The two concrete entries of the spec's empty-log scenario. -/
def e1 : LogEntry := ⟨1, 1, EntryType.entryNormal, "payload-one", []⟩

/-- Second entry of the spec's empty-log scenario. -/
def e2 : LogEntry := ⟨2, 1, EntryType.entryNormal, "payload-two", []⟩

/-- C6: on a fresh empty log `first_log_index() = 1` and
`last_log_index() = 0`; appending `[e1, e2]` makes `last_log_index() = 2`;
then `truncate_prefix(2)` makes `first_log_index() = 2`, `get_entry(1)`
not-found and `get_entry(2)` still `e2`. -/
theorem empty_log_scenario :
    first_log_index empty_log = 1 ∧
    last_log_index empty_log = 0 ∧
    last_log_index (append_entries empty_log [e1, e2]).1 = 2 ∧
    first_log_index ( truncate_prefix (append_entries empty_log [e1, e2]).1 2) = 2 ∧
    get_entry ( truncate_prefix (append_entries empty_log [e1, e2]).1 2) 1 = none ∧
    get_entry ( truncate_prefix (append_entries empty_log [e1, e2]).1 2) 2 = some e2 := by
  refine ⟨rfl, rfl, ?_, ?_, ?_, ?_⟩ <;> decide

/-- Field equation for `first_log_index` on an explicit state. -/
theorem first_log_index_mk (f : Int) (es : List LogEntry) :
    first_log_index { first := f, entries := es } = f := rfl

/-- Field equation for `last_log_index` on an explicit state. -/
theorem last_log_index_mk (f : Int) (es : List LogEntry) :
    last_log_index { first := f, entries := es } = f + es.length - 1 := rfl

/-- Field equation for `get_entry` on an explicit state, for rewriting. -/
theorem get_entry_mk (f : Int) (es : List LogEntry) (i : Int) :
    get_entry { first := f, entries := es } i =
      if f ≤ i ∧ i ≤ f + es.length - 1 then es[(i - f).toNat]? else none := rfl

/-- A two-entry log used to instantiate the truncation and term lemmas. -/
def two_entry_log : LogStorage := { first := 1, entries := [e1, e2] }

/-- C4: after `truncate_suffix(k)`, `last_log_index()` equals
`min(last_log_index_before, k)`; every index above `k` reads as not-found;
every index at most `k` reads exactly as before; when
`k >= last_log_index_before` the call is a no-op. -/
theorem truncate_suffix_correct (s : LogStorage) (k : Int) :
    last_log_index ( truncate_suffix s k) = min (last_log_index s) k ∧
    (∀ i : Int, k < i → get_entry ( truncate_suffix s k) i = none) ∧
    (∀ i : Int, i ≤ k → get_entry ( truncate_suffix s k) i = get_entry s i) ∧
    (last_log_index s ≤ k → truncate_suffix s k = s) := by
  by_cases hk : last_log_index s ≤ k
  · have heq : truncate_suffix s k = s := by
      unfold truncate_suffix
      rw [if_pos hk]
    rw [heq]
    exact ⟨(min_eq_left hk).symm,
      fun i hi => get_entry_out_of_range s i (Or.inr (by omega)),
      fun i _ => rfl, fun _ => rfl⟩
  · push_neg at hk
    have hlast : last_log_index s = s.first + s.entries.length - 1 := rfl
    by_cases hsmall : k < first_log_index s - 1
    · have heq : truncate_suffix s k = { first := k + 1, entries := [] } := by
        unfold truncate_suffix
        rw [if_neg (not_le.mpr hk), if_pos hsmall]
      unfold first_log_index at hsmall
      rw [heq]
      refine ⟨?_, fun i hi => ?_, fun i hi => ?_,
        fun h => absurd h (not_le.mpr hk)⟩
      · rw [last_log_index_mk, hlast]
        simp only [List.length_nil]
        rw [hlast] at hk
        omega
      · exact get_entry_out_of_range _ i
          (Or.inr (by rw [last_log_index_mk]; simp only [List.length_nil]; omega))
      · have hn1 : ¬(k + 1 ≤ i ∧
            i ≤ k + 1 + (([] : List LogEntry).length : Int) - 1) :=
          fun h => by omega
        rw [get_entry_mk, if_neg hn1]
        exact (get_entry_out_of_range s i
          (Or.inl (by unfold first_log_index; omega))).symm
    · have heq : truncate_suffix s k =
          { first := s.first, entries := s.entries.take (k - s.first + 1).toNat } := by
        unfold truncate_suffix
        rw [if_neg (not_le.mpr hk), if_neg hsmall]
      unfold first_log_index at hsmall
      rw [heq]
      refine ⟨?_, fun i hi => ?_, fun i hi => ?_,
        fun h => absurd h (not_le.mpr hk)⟩
      · rw [last_log_index_mk, List.length_take, hlast]
        rw [hlast] at hk
        omega
      · rw [get_entry_mk, if_neg]
        rintro ⟨ha, hb⟩
        rw [List.length_take] at hb
        rw [hlast] at hk
        omega
      · rw [get_entry_mk]
        unfold get_entry first_log_index last_log_index
        rw [List.length_take]
        rw [hlast] at hk
        by_cases hin : s.first ≤ i
        · have hb1 : i ≤ s.first +
              ((min (k - s.first + 1).toNat s.entries.length : Nat) : Int) - 1 := by
            omega
          have hb2 : i ≤ s.first + (s.entries.length : Int) - 1 := by omega
          have hidx : (i - s.first).toNat < (k - s.first + 1).toNat := by omega
          rw [if_pos ⟨hin, hb1⟩, if_pos ⟨hin, hb2⟩, List.getElem?_take_of_lt hidx]
        · have hn1 : ¬(s.first ≤ i ∧ i ≤ s.first +
              ((min (k - s.first + 1).toNat s.entries.length : Nat) : Int) - 1) :=
            fun h => hin h.1
          have hn2 : ¬(s.first ≤ i ∧ i ≤ s.first + (s.entries.length : Int) - 1) :=
            fun h => hin h.1
          rw [if_neg hn1, if_neg hn2]

/-- Witness for C4 at the two-entry log with `k = 2`, where every
hypothesis of the statement is satisfiable at once. -/
theorem truncate_suffix_correct_witness :
    last_log_index ( truncate_suffix two_entry_log 2)
      = min (last_log_index two_entry_log) 2 ∧
    ((2 : Int) < 3 ∧ get_entry ( truncate_suffix two_entry_log 2) 3 = none) ∧
    ((2 : Int) ≤ 2 ∧
      get_entry ( truncate_suffix two_entry_log 2) 2 = get_entry two_entry_log 2) ∧
    (last_log_index two_entry_log ≤ 2 ∧ truncate_suffix two_entry_log 2 = two_entry_log) :=
  ⟨(truncate_suffix_correct two_entry_log 2).1,
    ⟨by decide, (truncate_suffix_correct two_entry_log 2).2.1 3 (by decide)⟩,
    ⟨by decide, (truncate_suffix_correct two_entry_log 2).2.2.1 2 (by decide)⟩,
    ⟨by decide, (truncate_suffix_correct two_entry_log 2).2.2.2 (by decide)⟩⟩

/-- C5: on every in-range index, `get_term(i)` agrees with the term of the
entry returned by `get_entry(i)`. -/
theorem get_term_eq_entry_term (s : LogStorage) (i : Int)
    (h1 : first_log_index s ≤ i) (h2 : i ≤ last_log_index s) :
    Option.map LogEntry.term (get_entry s i) = some (get_term s i) := by
  have hlen : (i - s.first).toNat < s.entries.length := by
    unfold first_log_index at h1
    unfold last_log_index at h2
    omega
  unfold get_entry get_term
  rw [if_pos ⟨h1, h2⟩, if_pos ⟨h1, h2⟩, List.getElem?_eq_getElem hlen]
  rfl

/-- Witness for C5 at index 1 of the two-entry log. -/
theorem get_term_eq_entry_term_witness :
    first_log_index two_entry_log ≤ (1 : Int) ∧
    (1 : Int) ≤ last_log_index two_entry_log ∧
    Option.map LogEntry.term (get_entry two_entry_log 1)
      = some (get_term two_entry_log 1) :=
  ⟨by decide, by decide, get_term_eq_entry_term two_entry_log 1 (by decide) (by decide)⟩

/-! ### Snapshot-side code embedded from `storage.h` -/

/-- Outcome of a call whose body may hit a fatal `CHECK`: either the process
aborts at the failed assertion, or the call returns a code. -/
inductive HookResult where
  | aborted
  | returned (rc : Int)
  deriving DecidableEq, Repr

/-- Semantics of butil/glog `CHECK(cond) << ...; rest`: when `cond` is false
the process aborts at the assertion; otherwise execution continues with the
rest of the function. -/
def checkThen (cond : Bool) (rest : HookResult) : HookResult :=
  if cond then rest else HookResult.aborted

/-- Opaque handle standing for a `FileSystemAdaptor*`. -/
structure FileSystemAdaptor where
  handle : Nat
  deriving DecidableEq, Repr

/-- Opaque handle standing for a `SnapshotThrottle*`. -/
structure SnapshotThrottle where
  handle : Nat
  deriving DecidableEq, Repr

/-- `SnapshotStorage::set_filter_before_copy_remote` default body:
`CHECK(false) << ...; return -1;`. -/
def set_filter_before_copy_remote : HookResult :=
  checkThen false (HookResult.returned (-1))

/-- `SnapshotStorage::set_file_system_adaptor` default body:
`(void)fs; CHECK(false) << ...; return -1;`. -/
def set_file_system_adaptor (_fs : FileSystemAdaptor) : HookResult :=
  checkThen false (HookResult.returned (-1))

/-- `SnapshotStorage::set_snapshot_throttle` default body:
`(void)st; CHECK(false) << ...; return -1;`. -/
def set_snapshot_throttle (_st : SnapshotThrottle) : HookResult :=
  checkThen false (HookResult.returned (-1))

/-- C8: each default capability hook aborts at its failed assertion rather
than silently returning; the `-1` return is never reached. -/
theorem unsupported_hooks_abort :
    set_filter_before_copy_remote = HookResult.aborted ∧
    (∀ fs : FileSystemAdaptor, set_file_system_adaptor fs = HookResult.aborted) ∧
    (∀ st : SnapshotThrottle, set_snapshot_throttle st = HookResult.aborted) :=
  ⟨rfl, fun _ => rfl, fun _ => rfl⟩

/-- An opaque protobuf-style message: `Clear()` resets it to the (empty)
default-constructed value. -/
structure PBMessage where
  fields : List (String × String)
  deriving DecidableEq, Repr

/-- `Message::Clear()`: reset to the default-constructed message. -/
def PBMessage.clear (_m : PBMessage) : PBMessage := { fields := [] }

/-- `Snapshot::get_file_meta` default body: `(void)filename;
file_meta->Clear(); return 0;` — the pair is (return code, out-parameter
after the call). -/
def get_file_meta (_filename : String) (file_meta : PBMessage) : Int × PBMessage :=
  (0, PBMessage.clear file_meta)

/-- C9: the default `get_file_meta` succeeds (returns 0) on every filename,
including names not in the snapshot, leaving the out-message cleared; it
never returns an error. -/
theorem get_file_meta_default_ok :
    ∀ (filename : String) (m : PBMessage),
      (get_file_meta filename m).1 = 0 ∧
      (get_file_meta filename m).2 = { fields := [] } :=
  fun _ _ => ⟨rfl, rfl⟩

/-- An arbitrary `SnapshotWriter` implementation over backing state `σ`: the
pure-virtual two-argument `add_file(filename, file_meta)` it must provide,
taking the optional per-file metadata (`none` models a NULL pointer) and
returning the new state and the return code. -/
structure SnapshotWriterImpl (σ : Type) where
  add_file_with_meta : σ → String → Option PBMessage → σ × Int

/-- `SnapshotWriter::add_file(filename)` default body:
`return add_file(filename, NULL);`. -/
def add_file {σ : Type} (w : SnapshotWriterImpl σ) (st : σ) (filename : String) :
    σ × Int :=
  w.add_file_with_meta st filename none

/-- C10: for every implementation, state and filename, the single-argument
`add_file(filename)` returns the same code and produces the same state as
`add_file(filename, NULL)`. -/
theorem add_file_delegates_to_null_meta {σ : Type} (w : SnapshotWriterImpl σ)
    (st : σ) (filename : String) :
    add_file w st filename = w.add_file_with_meta st filename none := rfl

end Braft
